import Mathlib

/-!
Verification of the LUT-dump script (src/src/main/resources/dump_lut.py).

The script prints a header line, then reads the input one byte at a time.
For each byte it writes the byte's decimal value; after incrementing the
running count it writes a section header at counts 256 and 512, nothing at
count 768, and the separator at every other count.  The whole program
(argument check, file open, dump) is modelled as an event trace.
-/

namespace DumpLut

/-- String written immediately after the byte whose running count (after the
increment `nbytes = nbytes + 1`) is `n`.  Mirrors the if/elif/elif/else chain
of the script. -/
def sepAfter (n : Nat) : String :=
  if n = 256 then "\n# GREEN\n"
  else if n = 512 then "\n# BLUE\n"
  else if n = 768 then ""
  else ", "

/-- Output of the while loop when the remaining bytes are `bs` and the count
of bytes already processed is `n`: each byte's decimal value followed by the
string the branch chain selects for its count. -/
def dumpBody : List Nat → Nat → String
  | [], _ => ""
  | b :: rest, n => toString b ++ sepAfter (n + 1) ++ dumpBody rest (n + 1)

/-- Complete standard-output text the script produces for the byte sequence
`bytes` once the file has been opened: the initial header write followed by
the loop's output. -/
def dump_lut (bytes : List Nat) : String :=
  "# RED\n" ++ dumpBody bytes 0

/-- Errors the Python interpreter can raise in this script: the IndexError
from `sys.argv[1]` when the argument is missing, and the IOError from a
failed `open`. -/
inductive PyError
  | indexError
  | fileError
deriving DecidableEq

/-- Observable events of one program run: a write to standard output, an
attempt to open a file, or an uncaught interpreter error. -/
inductive Ev
  | out (s : String)
  | openFile (path : String)
  | raise (e : PyError)
deriving DecidableEq

/-- Text the `print` statement of the usage branch writes (a trailing newline
as Python's print adds one). -/
def usageMsg : String := "Usage: dump_lut.py some_lut.lut\n"

/-- Event trace of the whole script on argument vector `argv` (Python's
`sys.argv`, so `argv[0]` is the script name) with file system `fs` mapping a
path to the byte contents of a readable file, or `none` when opening fails.
The usage message is printed when `len(sys.argv) != 2`; the script then
unconditionally evaluates `sys.argv[1]` (IndexError when absent) and opens
that path (IOError on failure), and on success dumps the bytes. -/
def run_trace (argv : List String) (fs : String → Option (List Nat)) : List Ev :=
  (if argv.length ≠ 2 then [Ev.out usageMsg] else []) ++
    match argv.get? 1 with
    | none => [Ev.raise PyError.indexError]
    | some path =>
      Ev.openFile path ::
        match fs path with
        | none => [Ev.raise PyError.fileError]
        | some bytes => [Ev.out (dump_lut bytes)]

/-- Values joined with the separator between consecutive values and nothing
at either end; the spec's notion of a comma-separated run of values. -/
def commaSep : List Nat → String
  | [] => ""
  | [b] => toString b
  | b :: c :: rest => toString b ++ ", " ++ commaSep (c :: rest)

/-- Each value followed by the separator, the shape of the script's output
past the 768th byte, where the else branch fires after every byte. -/
def catSep : List Nat → String
  | [] => ""
  | b :: rest => toString b ++ ", " ++ catSep rest

/-- Tokenised view of the loop body: a value token per byte, and the token
the branch chain selects after it. -/
inductive Tok
  | val (b : Nat)
  | sep
  | hdr (name : String)
deriving DecidableEq

/-- Token emitted after the byte whose running count is `n`, mirroring
`sepAfter` at the token level. -/
def tokAfter (n : Nat) : List Tok :=
  if n = 256 then [Tok.hdr "GREEN"]
  else if n = 512 then [Tok.hdr "BLUE"]
  else if n = 768 then []
  else [Tok.sep]

/-- Token stream of the loop on remaining bytes `bs` with `n` bytes already
processed. -/
def emitToks : List Nat → Nat → List Tok
  | [], _ => []
  | b :: rest, n => Tok.val b :: (tokAfter (n + 1) ++ emitToks rest (n + 1))

/-- Text a single token denotes. -/
def render : Tok → String
  | Tok.val b => toString b
  | Tok.sep => ", "
  | Tok.hdr h => "\n# " ++ h ++ "\n"

/-- Concatenated text of a token stream. -/
def renderAll : List Tok → String
  | [] => ""
  | t :: rest => render t ++ renderAll rest

/-- Token test: is this the separator token. -/
def isSep : Tok → Bool
  | Tok.sep => true
  | _ => false

/-- Token test: is this a header token. -/
def isHdr : Tok → Bool
  | Tok.hdr _ => true
  | _ => false

/-- True when no separator token is immediately followed by a header token
anywhere in the stream. -/
def noSepHdr : List Tok → Bool
  | [] => true
  | [_] => true
  | a :: b :: rest => (!(isSep a && isHdr b)) && noSepHdr (b :: rest)

theorem str_append_assoc (a b c : String) : a ++ b ++ c = a ++ (b ++ c) :=
  String.ext (by simp)

theorem dumpBody_append (xs ys : List Nat) (n : Nat) :
    dumpBody (xs ++ ys) n = dumpBody xs n ++ dumpBody ys (n + xs.length) := by
  induction xs generalizing n with
  | nil => simp [dumpBody]
  | cons x xs ih =>
    have h : n + (x :: xs).length = n + 1 + xs.length := by
      simp [List.length_cons]; omega
    calc dumpBody ((x :: xs) ++ ys) n
        = toString x ++ sepAfter (n + 1) ++ dumpBody (xs ++ ys) (n + 1) := rfl
      _ = toString x ++ sepAfter (n + 1) ++
            (dumpBody xs (n + 1) ++ dumpBody ys (n + 1 + xs.length)) := by rw [ih]
      _ = toString x ++ sepAfter (n + 1) ++ dumpBody xs (n + 1) ++
            dumpBody ys (n + 1 + xs.length) := by simp [str_append_assoc]
      _ = dumpBody (x :: xs) n ++ dumpBody ys (n + (x :: xs).length) := by
            rw [h]; simp only [dumpBody]

theorem dumpBody_run (xs : List Nat) (n : Nat) (hne : xs ≠ [])
    (h : ∀ i, n < i → i < n + xs.length → sepAfter i = ", ") :
    dumpBody xs n = commaSep xs ++ sepAfter (n + xs.length) := by
  induction xs generalizing n with
  | nil => exact absurd rfl hne
  | cons x xs ih =>
    cases xs with
    | nil => simp [dumpBody, commaSep, str_append_assoc]
    | cons c rest =>
      have hsep : sepAfter (n + 1) = ", " :=
        h (n + 1) (by omega) (by simp only [List.length_cons]; omega)
      have ih2 : dumpBody (c :: rest) (n + 1)
          = commaSep (c :: rest) ++ sepAfter (n + 1 + (c :: rest).length) := by
        apply ih (n + 1) (by simp)
        intro i hi1 hi2
        apply h i (by omega)
        simp [List.length_cons] at hi2 ⊢
        omega
      have hn : n + 1 + (c :: rest).length = n + (x :: c :: rest).length := by
        simp [List.length_cons]; omega
      calc dumpBody (x :: c :: rest) n
          = toString x ++ sepAfter (n + 1) ++ dumpBody (c :: rest) (n + 1) := rfl
        _ = toString x ++ ", " ++
              (commaSep (c :: rest) ++ sepAfter (n + 1 + (c :: rest).length)) := by
            rw [hsep, ih2]
        _ = commaSep (x :: c :: rest) ++ sepAfter (n + (x :: c :: rest).length) := by
            rw [← hn]
            simp only [commaSep]
            simp [str_append_assoc]

theorem dumpBody_tail (xs : List Nat) (n : Nat) (h : 768 ≤ n) :
    dumpBody xs n = catSep xs := by
  induction xs generalizing n with
  | nil => rfl
  | cons x xs ih =>
    have hs : sepAfter (n + 1) = ", " := by
      unfold sepAfter
      rw [if_neg (by omega), if_neg (by omega), if_neg (by omega)]
    simp only [dumpBody, catSep, hs, ih (n + 1) (by omega)]

/-- Claim C6: on the empty input the complete output is exactly the header
line with its newline and nothing else. -/
theorem claim_C6 : dump_lut [] = "# RED\n" := by
  simp [dump_lut, dumpBody]

/-- Claim C2 counterexample: on input bytes 0, 128, 255 the output is not
the claimed string, because the loop writes the separator after the final
value as well (the running count 3 falls into the else branch). -/
theorem claim_C2_counterexample : dump_lut [0, 128, 255] ≠ "# RED\n0, 128, 255" := by
  decide

/-- Claim C2 as amended: on input bytes 0, 128, 255 the complete output is
the claimed string followed by one trailing separator. -/
theorem claim_C2 : dump_lut [0, 128, 255] = "# RED\n0, 128, 255, " := by
  decide

/-- Claim C5: a 256-byte input yields the red header, the 256 values
comma-separated, and the green header string immediately after, with
nothing following. -/
theorem claim_C5 (bs : List Nat) (h : bs.length = 256) :
    dump_lut bs = "# RED\n" ++ commaSep bs ++ "\n# GREEN\n" := by
  have hne : bs ≠ [] := List.ne_nil_of_length_pos (by omega)
  have hrun := dumpBody_run bs 0 hne (by
    intro i hi1 hi2
    rw [h] at hi2
    unfold sepAfter
    rw [if_neg (by omega), if_neg (by omega), if_neg (by omega)])
  rw [dump_lut, hrun, h]
  rw [show sepAfter (0 + 256) = "\n# GREEN\n" from rfl]
  rw [str_append_assoc]

theorem claim_C5_witness :
    dump_lut (List.replicate 256 3) =
      "# RED\n" ++ commaSep (List.replicate 256 3) ++ "\n# GREEN\n" :=
  claim_C5 (List.replicate 256 3) (List.length_replicate 256 3)

/-- Claim C3: a 768-byte input, split into its three 256-byte channels,
yields the three headers in order, each followed by that channel's 256
comma-separated values, the green and blue headers immediately after the
256th and 512th values, and no trailing separator. -/
theorem claim_C3 (r g b : List Nat) (hr : r.length = 256) (hg : g.length = 256)
    (hb : b.length = 256) :
    dump_lut (r ++ g ++ b) =
      "# RED\n" ++ commaSep r ++ "\n# GREEN\n" ++ commaSep g ++ "\n# BLUE\n" ++ commaSep b := by
  have hr0 : dumpBody r 0 = commaSep r ++ "\n# GREEN\n" := by
    have hx := dumpBody_run r 0 (List.ne_nil_of_length_pos (by omega)) (by
      intro i hi1 hi2
      rw [hr] at hi2
      unfold sepAfter
      rw [if_neg (by omega), if_neg (by omega), if_neg (by omega)])
    rw [hx, hr]
    rw [show sepAfter (0 + 256) = "\n# GREEN\n" from rfl]
  have hg0 : dumpBody g 256 = commaSep g ++ "\n# BLUE\n" := by
    have hx := dumpBody_run g 256 (List.ne_nil_of_length_pos (by omega)) (by
      intro i hi1 hi2
      rw [hg] at hi2
      unfold sepAfter
      rw [if_neg (by omega), if_neg (by omega), if_neg (by omega)])
    rw [hx, hg]
    rw [show sepAfter (256 + 256) = "\n# BLUE\n" from rfl]
  have hb0 : dumpBody b 512 = commaSep b := by
    have hx := dumpBody_run b 512 (List.ne_nil_of_length_pos (by omega)) (by
      intro i hi1 hi2
      rw [hb] at hi2
      unfold sepAfter
      rw [if_neg (by omega), if_neg (by omega), if_neg (by omega)])
    rw [hx, hb]
    rw [show sepAfter (512 + 256) = "" from rfl]
    simp
  rw [dump_lut, List.append_assoc, dumpBody_append, dumpBody_append, hr, hg]
  norm_num
  rw [hr0, hg0, hb0]
  simp [str_append_assoc]

theorem claim_C3_witness :
    dump_lut (List.replicate 256 0 ++ List.replicate 256 1 ++ List.replicate 256 2) =
      "# RED\n" ++ commaSep (List.replicate 256 0) ++ "\n# GREEN\n" ++
        commaSep (List.replicate 256 1) ++ "\n# BLUE\n" ++ commaSep (List.replicate 256 2) :=
  claim_C3 (List.replicate 256 0) (List.replicate 256 1) (List.replicate 256 2)
    (List.length_replicate 256 0) (List.length_replicate 256 1) (List.length_replicate 256 2)

/-- Claim C4: after a 767-byte run, the 768th byte is emitted as its bare
value with nothing after it (no separator, no header), and every byte from
the 769th onward is emitted with normal comma separation and no further
section headers. -/
theorem claim_C4 (cs : List Nat) (b : Nat) (xs : List Nat) (h : cs.length = 767) :
    dump_lut (cs ++ b :: xs) = dump_lut cs ++ toString b ++ catSep xs := by
  rw [dump_lut, dump_lut, dumpBody_append, h]
  norm_num
  rw [show dumpBody (b :: xs) 767 = toString b ++ sepAfter 768 ++ dumpBody xs 768 from rfl]
  rw [show sepAfter 768 = "" from rfl, dumpBody_tail xs 768 (by omega)]
  simp [str_append_assoc]

theorem claim_C4_witness :
    dump_lut (List.replicate 767 0 ++ 5 :: [7, 9]) =
      dump_lut (List.replicate 767 0) ++ toString 5 ++ catSep [7, 9] :=
  claim_C4 (List.replicate 767 0) 5 [7, 9] (List.length_replicate 767 0)

/-- Claim C7: the decoder is deterministic; any two runs on the same byte
sequence produce the same output text. -/
theorem claim_C7 (bs : List Nat) (out1 out2 : String)
    (h1 : out1 = dump_lut bs) (h2 : out2 = dump_lut bs) : out1 = out2 := by
  rw [h1, h2]

theorem claim_C7_witness : dump_lut [1] = dump_lut [1] :=
  claim_C7 [1] (dump_lut [1]) (dump_lut [1]) rfl rfl

/-- Claim C10: the formatter is prefix-monotone; appending one more byte to
the input only appends text to the previous output. -/
theorem claim_C10 (s : List Nat) (b : Nat) :
    ∃ t, dump_lut (s ++ [b]) = dump_lut s ++ t := by
  refine ⟨toString b ++ sepAfter (0 + s.length + 1), ?_⟩
  rw [dump_lut, dump_lut, dumpBody_append]
  rw [show dumpBody [b] (0 + s.length)
        = toString b ++ sepAfter (0 + s.length + 1) ++ "" from rfl]
  simp [str_append_assoc]

/-- Claim C8: on a wrong argument count the script prints the usage message
first, and when a first file argument exists it still goes on to attempt to
open that file. -/
theorem claim_C8 (argv : List String) (fs : String → Option (List Nat)) (path : String)
    (h : argv.length ≠ 2) (hp : argv.get? 1 = some path) :
    (run_trace argv fs).head? = some (Ev.out usageMsg) ∧
      Ev.openFile path ∈ run_trace argv fs := by
  rw [run_trace, if_pos h, hp]
  constructor
  · rfl
  · cases hfs : fs path <;> simp

theorem claim_C8_witness :
    (run_trace ["dump_lut.py", "a", "b"] fun _ => none).head? = some (Ev.out usageMsg) ∧
      Ev.openFile "a" ∈ run_trace ["dump_lut.py", "a", "b"] fun _ => none :=
  claim_C8 ["dump_lut.py", "a", "b"] (fun _ => none) "a" (by decide) rfl

/-- Claim C9: invoked with no file argument at all, the script prints the
usage message and then dies on the IndexError from the missing argument; it
never attempts a file open, so the failure is not a file-access error. -/
theorem claim_C9 (argv : List String) (fs : String → Option (List Nat))
    (h : argv.length = 1) :
    run_trace argv fs = [Ev.out usageMsg, Ev.raise PyError.indexError] := by
  have h2 : argv.length ≠ 2 := by omega
  have hget : argv.get? 1 = none := by
    rw [List.get?_eq_none]
    omega
  rw [run_trace, if_pos h2, hget]
  rfl

theorem claim_C9_witness :
    run_trace ["dump_lut.py"] (fun _ => none) =
      [Ev.out usageMsg, Ev.raise PyError.indexError] :=
  claim_C9 ["dump_lut.py"] (fun _ => none) rfl

theorem renderAll_append (a b : List Tok) :
    renderAll (a ++ b) = renderAll a ++ renderAll b := by
  induction a with
  | nil => simp [renderAll]
  | cons t rest ih => simp [renderAll, ih, str_append_assoc]

theorem renderAll_tokAfter (n : Nat) : renderAll (tokAfter n) = sepAfter n := by
  unfold tokAfter sepAfter
  by_cases h1 : n = 256
  · rw [if_pos h1, if_pos h1]; rfl
  · rw [if_neg h1, if_neg h1]
    by_cases h2 : n = 512
    · rw [if_pos h2, if_pos h2]; rfl
    · rw [if_neg h2, if_neg h2]
      by_cases h3 : n = 768
      · rw [if_pos h3, if_pos h3]; rfl
      · rw [if_neg h3, if_neg h3]; rfl

theorem dumpBody_eq_renderAll (bs : List Nat) (n : Nat) :
    dumpBody bs n = renderAll (emitToks bs n) := by
  induction bs generalizing n with
  | nil => rfl
  | cons b rest ih =>
    simp only [dumpBody, emitToks, renderAll, renderAll_append, render, renderAll_tokAfter,
      ih, str_append_assoc]

theorem emitToks_head_not_hdr (bs : List Nat) (n : Nat) (s : String) :
    (emitToks bs n).head? ≠ some (Tok.hdr s) := by
  cases bs with
  | nil => simp [emitToks]
  | cons b rest => simp [emitToks]

theorem noSepHdr_cons (a : Tok) (l : List Tok) (hl : noSepHdr l = true)
    (h : isSep a = false ∨ ∀ s, l.head? ≠ some (Tok.hdr s)) :
    noSepHdr (a :: l) = true := by
  cases l with
  | nil => rfl
  | cons b rest =>
    have hb : (isSep a && isHdr b) = false := by
      rcases h with h | h
      · simp [h]
      · cases b with
        | val c => simp [isHdr]
        | sep => simp [isHdr]
        | hdr s => exact absurd (by simp) (h s)
    simp [noSepHdr, hb, hl]

theorem noSepHdr_emitToks (bs : List Nat) (n : Nat) : noSepHdr (emitToks bs n) = true := by
  induction bs generalizing n with
  | nil => rfl
  | cons b rest ih =>
    have htail : noSepHdr (emitToks rest (n + 1)) = true := ih (n + 1)
    simp only [emitToks]
    unfold tokAfter
    by_cases h1 : n + 1 = 256
    · rw [if_pos h1, List.singleton_append]
      exact noSepHdr_cons (Tok.val b) _
        (noSepHdr_cons (Tok.hdr "GREEN") _ htail (Or.inl rfl)) (Or.inl rfl)
    · rw [if_neg h1]
      by_cases h2 : n + 1 = 512
      · rw [if_pos h2, List.singleton_append]
        exact noSepHdr_cons (Tok.val b) _
          (noSepHdr_cons (Tok.hdr "BLUE") _ htail (Or.inl rfl)) (Or.inl rfl)
      · rw [if_neg h2]
        by_cases h3 : n + 1 = 768
        · rw [if_pos h3, List.nil_append]
          exact noSepHdr_cons (Tok.val b) _ htail (Or.inl rfl)
        · rw [if_neg h3, List.singleton_append]
          apply noSepHdr_cons (Tok.val b) _ ?_ (Or.inl rfl)
          exact noSepHdr_cons Tok.sep _ htail (Or.inr (emitToks_head_not_hdr rest (n + 1)))

theorem emitToks_getLast_sep (bs : List Nat) (n : Nat) :
    (emitToks bs n).getLast? = some Tok.sep ↔
      (bs ≠ [] ∧ n + bs.length ≠ 256 ∧ n + bs.length ≠ 512 ∧ n + bs.length ≠ 768) := by
  induction bs generalizing n with
  | nil => simp [emitToks]
  | cons b rest ih =>
    cases rest with
    | nil =>
      rw [show emitToks [b] n = Tok.val b :: tokAfter (n + 1) from by simp [emitToks]]
      unfold tokAfter
      by_cases h1 : n + 1 = 256
      · rw [if_pos h1]
        rw [show (Tok.val b :: [Tok.hdr "GREEN"]).getLast? = some (Tok.hdr "GREEN") from rfl]
        simp [h1]
      · rw [if_neg h1]
        by_cases h2 : n + 1 = 512
        · rw [if_pos h2]
          rw [show (Tok.val b :: [Tok.hdr "BLUE"]).getLast? = some (Tok.hdr "BLUE") from rfl]
          simp [h2]
        · rw [if_neg h2]
          by_cases h3 : n + 1 = 768
          · rw [if_pos h3]
            rw [show (Tok.val b :: ([] : List Tok)).getLast? = some (Tok.val b) from rfl]
            simp [h3]
          · rw [if_neg h3]
            rw [show (Tok.val b :: [Tok.sep]).getLast? = some Tok.sep from rfl]
            simp [h1, h2, h3]
    | cons c rest2 =>
      have hne2 : emitToks (c :: rest2) (n + 1) ≠ [] := by simp [emitToks]
      have hsplit : (emitToks (b :: c :: rest2) n).getLast?
          = (emitToks (c :: rest2) (n + 1)).getLast? := by
        rw [show emitToks (b :: c :: rest2) n
              = (Tok.val b :: tokAfter (n + 1)) ++ emitToks (c :: rest2) (n + 1) from by
            simp [emitToks]]
        exact List.getLast?_append_of_ne_nil _ hne2
      rw [hsplit, ih (n + 1)]
      simp only [List.length_cons, ne_eq, reduceCtorEq, not_false_eq_true, true_and]
      omega

/-- Claim C1 counterexample: on the one-byte input with value 5 the last
thing emitted after the final printed value is the separator, and the full
output text ends with it; so the claim that no input ever yields a trailing
separator is false. -/
theorem claim_C1_counterexample :
    (emitToks [5] 0).getLast? = some Tok.sep ∧ dump_lut [5] = "# RED\n5, " := by
  constructor
  · rfl
  · rfl

/-- Claim C1 as amended: in the token stream of the loop no separator is
ever emitted immediately before a section header; the final emission is the
separator exactly when the input length is none of 0, 256, 512 and 768 (so
freedom from a trailing separator holds only at those lengths); and the
program's output text is the header line followed by the rendered token
stream. -/
theorem claim_C1 (bs : List Nat) :
    noSepHdr (emitToks bs 0) = true ∧
      ((emitToks bs 0).getLast? = some Tok.sep ↔
        (bs ≠ [] ∧ bs.length ≠ 256 ∧ bs.length ≠ 512 ∧ bs.length ≠ 768)) ∧
      dump_lut bs = "# RED\n" ++ renderAll (emitToks bs 0) := by
  refine ⟨noSepHdr_emitToks bs 0, ?_, ?_⟩
  · have h := emitToks_getLast_sep bs 0
    simpa using h
  · rw [dump_lut, dumpBody_eq_renderAll]

end DumpLut
